import Mathlib

/-!
Shallow embedding of the dispatch-policy subsystem of an Ilúvatar FaaS worker:
the adaptive-threshold "Mice" policy (`mice.rs`) and the baseline
"WeightedRandom" policy (`weighted_random.rs`).

Numbers of type `f64` are modelled by `F`: a rational payload together with the
IEEE special values NaN, +inf and -inf.  Arithmetic on finite payloads is exact
rational arithmetic; the branch behaviour of comparisons and of `f64::max` on
the special values follows IEEE-754 / Rust semantics (`NaN` compares false,
`max` ignores a NaN argument).  The external collaborators (characteristics
store, queue map, clock, dispatch context) are modelled as explicit arguments
and return values, so every policy decision is a pure state transition.
-/

/-- Model of an `f64` value: a finite rational, NaN, or a signed infinity. -/
inductive F where
  | finite (q : ℚ)
  | nan
  | inf
  | neginf
deriving DecidableEq, Repr

namespace F

/-- `f64::is_finite`. -/
def isFinite : F → Bool
  | finite _ => true
  | _ => false

/-- IEEE `<` comparison: any comparison with NaN is false. -/
def lt : F → F → Bool
  | nan, _ => false
  | _, nan => false
  | neginf, neginf => false
  | neginf, _ => true
  | _, neginf => false
  | inf, _ => false
  | finite _, inf => true
  | finite a, finite b => decide (a < b)

/-- IEEE `<=` comparison: any comparison with NaN is false. -/
def le : F → F → Bool
  | nan, _ => false
  | _, nan => false
  | neginf, _ => true
  | _, neginf => false
  | _, inf => true
  | inf, finite _ => false
  | finite a, finite b => decide (a ≤ b)

/-- IEEE addition on the extended values; exact on finite payloads. -/
def add : F → F → F
  | nan, _ => nan
  | _, nan => nan
  | inf, neginf => nan
  | neginf, inf => nan
  | inf, _ => inf
  | _, inf => inf
  | neginf, _ => neginf
  | _, neginf => neginf
  | finite a, finite b => finite (a + b)

/-- IEEE negation. -/
def neg : F → F
  | nan => nan
  | inf => neginf
  | neginf => inf
  | finite a => finite (-a)

/-- IEEE subtraction, via `add` and `neg` (so `inf - inf = nan`). -/
def sub (a b : F) : F := add a (neg b)

/-- IEEE multiplication; `inf * 0 = nan`, signs propagate. -/
def mul : F → F → F
  | nan, _ => nan
  | _, nan => nan
  | inf, inf => inf
  | inf, neginf => neginf
  | neginf, inf => neginf
  | neginf, neginf => inf
  | inf, finite b => if 0 < b then inf else if b < 0 then neginf else nan
  | finite a, inf => if 0 < a then inf else if a < 0 then neginf else nan
  | neginf, finite b => if 0 < b then neginf else if b < 0 then inf else nan
  | finite a, neginf => if 0 < a then neginf else if a < 0 then inf else nan
  | finite a, finite b => finite (a * b)

/-- IEEE division (the sign of a zero divisor is not modelled; `0/0 = nan`,
`inf/inf = nan`, a finite value divided by an infinity is `0`). -/
def div : F → F → F
  | nan, _ => nan
  | _, nan => nan
  | inf, inf => nan
  | inf, neginf => nan
  | neginf, inf => nan
  | neginf, neginf => nan
  | inf, finite b => if b < 0 then neginf else inf
  | neginf, finite b => if b < 0 then inf else neginf
  | finite _, inf => finite 0
  | finite _, neginf => finite 0
  | finite a, finite b =>
    if b = 0 then (if a = 0 then nan else if 0 < a then inf else neginf)
    else finite (a / b)

/-- Rust `f64::max`: returns the other argument when one is NaN. -/
def max : F → F → F
  | nan, b => b
  | a, nan => a
  | inf, _ => inf
  | _, inf => inf
  | neginf, b => b
  | a, neginf => a
  | finite a, finite b => finite (Max.max a b)

/-- Rust `f64::powi` restricted to nonnegative exponents (`x.powi(0) = 1`,
including for NaN, as in Rust). -/
def powi (x : F) : ℕ → F
  | 0 => finite 1
  | n + 1 => mul x (powi x n)

end F

/-- The compute device classes used as routing targets. -/
inductive Compute where
  | CPU
  | GPU
deriving DecidableEq, Repr

/-- The per-function metrics of the characteristics store that this subsystem
touches. -/
inductive Chars where
  | EstGpu
  | E2EGpu
  | GpuExecTime
deriving DecidableEq, Repr

/-- Modelled from the spec: the external CharacteristicsStore, a per-function
per-metric table of averaged float statistics, read by `get` / `get_2` and
written by `update`.  (The store implementation lives in `iluvatar_library`,
outside the given sources; the spec describes point reads and single-value
updates keyed by function identity and metric.) -/
def CharMap := String → Chars → F

/-- Modelled from the spec: `update(fn, metric, value)` stores `value` as the
statistic for that function and metric. -/
def CharMap.update (c : CharMap) (fqdn : String) (m : Chars) (v : F) : CharMap :=
  fun f m2 => if f = fqdn ∧ m2 = m then v else c f m2

/-- Modelled from the spec: the reserved sentinel float meaning "no estimate
available" (`NO_ESTIMATE` of the dispatching module, which is outside the
given sources). -/
def NO_ESTIMATE : F := F.finite 0

/-- Internal state for the MICE policy (`MiceState` in `mice.rs`). -/
structure MiceState where
  /-- Dispatch threshold (jobs with size < tau go to the GPU). -/
  tau : F
  /-- Cumulative workload dispatched to the GPU during the current epoch. -/
  gpu_work : F
  /-- Cumulative workload dispatched to the CPU during the current epoch. -/
  cpu_work : F
  /-- Number of invocations dispatched during the current epoch. -/
  count : ℕ
  /-- Timestamp marking the start of the current epoch (seconds). -/
  last_update : ℚ
deriving DecidableEq, Repr

/-- The fixed tuning constants of a `Mice` policy instance. -/
structure Mice where
  /-- Epoch length (jobs per threshold update). -/
  m : ℕ
  /-- Threshold step size (seconds). -/
  epsilon : F
  /-- Alpha parameter in the target load formula. -/
  alpha : F

/-- The constants installed by `Mice::new`: `m = 100`, `epsilon = 0.1`,
`alpha = 0.8`. -/
def Mice.new : Mice :=
  { m := 100, epsilon := F.finite (1 / 10), alpha := F.finite (4 / 5) }

/-- The initial `MiceState` installed by `Mice::new`: `tau = 10.0`, zero
accumulators, `last_update = clock.now()`. -/
def MiceState.new (t0 : ℚ) : MiceState :=
  { tau := F.finite 10, gpu_work := F.finite 0, cpu_work := F.finite 0,
    count := 0, last_update := t0 }

/-- One decision's view of the external collaborators: the queue map entries
for GPU and CPU (each `some (est_completion_time, current_load)` or absent),
the clock reading, and the function's fqdn. -/
structure MiceEnv where
  gpuQueue : Option (F × F)
  cpuQueue : Option (F × F)
  now : ℚ
  fqdn : String

/-- `Mice::get_gpu_est`: the Kalman-like per-function filter.  Reads the
stored `EstGpu` and `E2EGpu` averages, repairs non-finite or non-positive
values to `max(rawEst, 0)`, blends with fixed weights `0.1 / 0.7 / 0.2`,
persists the result under `EstGpu`, and returns `(xhat, z)` together with the
updated store. -/
def Mice.get_gpu_est (cmap : CharMap) (fqdn : String) (mqfq_est : F) :
    (F × F) × CharMap :=
  let prev_est_raw := cmap fqdn Chars.EstGpu
  let prev_e2e_raw := cmap fqdn Chars.E2EGpu
  let prev_est :=
    if prev_est_raw.isFinite && F.lt (F.finite 0) prev_est_raw then prev_est_raw
    else F.max mqfq_est (F.finite 0)
  let prev_e2e :=
    if prev_e2e_raw.isFinite && F.lt (F.finite 0) prev_e2e_raw then prev_e2e_raw
    else F.max mqfq_est (F.finite 0)
  let obs :=
    if mqfq_est.isFinite && F.lt (F.finite 0) mqfq_est then mqfq_est
    else prev_est
  let z := F.sub prev_e2e prev_est
  let alpha := F.finite (1 / 10)
  let beta := F.finite (7 / 10)
  let k := F.sub (F.finite 1) (F.add beta alpha)
  let xhat := F.add (F.add (F.mul alpha prev_est) (F.mul beta obs)) (F.mul k z)
  ((xhat, z), CharMap.update cmap fqdn Chars.EstGpu xhat)

/-- `Mice::job_size_est`: use the filtered GPU exec time as the job "size";
fall back to the `GpuExecTime` average from the char map, then to `1.0`. -/
def Mice.job_size_est (cmap : CharMap) (fid : String) (filtered_gpu_est : F) : F :=
  if filtered_gpu_est.isFinite && F.lt (F.finite 0) filtered_gpu_est then
    filtered_gpu_est
  else
    let est := cmap fid Chars.GpuExecTime
    if est.isFinite && F.lt (F.finite 0) est then est else F.finite 1

/-- The queue-estimate pull of `Mice::choose`: a present queue entry yields
its `est_completion_time` pair, an absent one the `NO_ESTIMATE` sentinels. -/
def Mice.queuePair (q : Option (F × F)) : F × F :=
  match q with
  | some x => x
  | none => (NO_ESTIMATE, NO_ESTIMATE)

/-- The estimator-plus-size-resolution prefix of `Mice::choose`: run
`get_gpu_est` on the GPU queue's raw estimate, then `job_size_est` on the
filtered value; returns the resolved size and the updated store. -/
def Mice.resolveSize (cmap : CharMap) (env : MiceEnv) : F × CharMap :=
  let gpu_est := (Mice.queuePair env.gpuQueue).1
  let er := Mice.get_gpu_est cmap env.fqdn gpu_est
  (Mice.job_size_est er.2 env.fqdn er.1.1, er.2)

/-- The per-epoch accumulator update of `Mice::choose`: add `size` to
`gpu_work` or `cpu_work` depending on the routing outcome, increment `count`. -/
def Mice.accumulate (st : MiceState) (use_gpu : Bool) (size : F) : MiceState :=
  let st1 :=
    if use_gpu then { st with gpu_work := F.add st.gpu_work size }
    else { st with cpu_work := F.add st.cpu_work size }
  { st1 with count := st1.count + 1 }

/-- The epoch-close body of `Mice::choose`: compute `dt`, the observed loads,
the target-load rule, step `tau` by `epsilon`, and reset the accumulators. -/
def Mice.epochClose (p : Mice) (st : MiceState) (now : ℚ) : MiceState :=
  let dt := F.max (F.finite (now - st.last_update)) (F.finite (1 / 1000000))
  let rho_gpu := F.div st.gpu_work dt
  let rho_cpu := F.div st.cpu_work dt
  let rho := F.add rho_gpu rho_cpu
  let target_gpu :=
    F.add rho (F.mul (F.mul p.alpha (F.powi rho 4)) (F.sub (F.finite 1) rho))
  let tau2 :=
    if F.lt rho_gpu target_gpu then F.add st.tau p.epsilon
    else F.max (F.sub st.tau p.epsilon) (F.finite 0)
  { tau := tau2, gpu_work := F.finite 0, cpu_work := F.finite 0,
    count := 0, last_update := now }

/-- The epoch-boundary check of `Mice::choose`: close the epoch when
`count >= m` and `last_update < now`; the Bool reports whether a threshold
adjustment happened. -/
def Mice.epochCheck (p : Mice) (st : MiceState) (now : ℚ) : MiceState × Bool :=
  if p.m ≤ st.count ∧ st.last_update < now then (Mice.epochClose p st now, true)
  else (st, false)

/-- Everything observable about one `Mice::choose` call: the returned triple,
the telemetry values (job size, both classes' raw estimates and loads, the
missing-queue warnings, whether the epoch closed), and the updated controller
state and characteristics store. -/
structure ChooseResult where
  dev : Compute
  load : F
  est : F
  size : F
  gpuEst : F
  gpuLoad : F
  cpuEst : F
  cpuLoad : F
  gpuWarn : Bool
  cpuWarn : Bool
  epochClosed : Bool
  state : MiceState
  cmap : CharMap

/-- `Mice::choose` as a pure state transition.  Pulls queue estimates
(substituting `NO_ESTIMATE` and warning when a class's queue is missing), runs
the estimator and job-size resolution, routes to GPU iff a GPU queue exists
and `size < tau`, updates the epoch accumulators, and possibly closes the
epoch — all under one lock acquisition in the source. -/
def Mice.choose (p : Mice) (cmap : CharMap) (st : MiceState) (env : MiceEnv) :
    ChooseResult :=
  let gpuPair := Mice.queuePair env.gpuQueue
  let cpuPair := Mice.queuePair env.cpuQueue
  let gpu_est := gpuPair.1
  let gpu_load := gpuPair.2
  let cpu_est := cpuPair.1
  let cpu_load := cpuPair.2
  let rs := Mice.resolveSize cmap env
  let size := rs.1
  let cmap2 := rs.2
  let gpu_available := env.gpuQueue.isSome
  let use_gpu := gpu_available && F.lt size st.tau
  let stAcc := Mice.accumulate st use_gpu size
  let ec := Mice.epochCheck p stAcc env.now
  let devTriple :=
    if use_gpu then (Compute.GPU, gpu_load, gpu_est)
    else (Compute.CPU, cpu_load, cpu_est)
  { dev := devTriple.1, load := devTriple.2.1, est := devTriple.2.2,
    size := size, gpuEst := gpu_est, gpuLoad := gpu_load,
    cpuEst := cpu_est, cpuLoad := cpu_load,
    gpuWarn := env.gpuQueue.isNone, cpuWarn := env.cpuQueue.isNone,
    epochClosed := ec.2, state := ec.1, cmap := cmap2 }

/-- Fold a sequence of decisions through one controller, threading the
characteristics store and the controller state. -/
def Mice.run (p : Mice) (cmap : CharMap) (st : MiceState) :
    List MiceEnv → CharMap × MiceState
  | [] => (cmap, st)
  | e :: es =>
    let r := Mice.choose p cmap st e
    Mice.run p r.cmap r.state es

/-- Like `Mice.run` but keeping every decision's full result. -/
def Mice.runTrace (p : Mice) (cmap : CharMap) (st : MiceState) :
    List MiceEnv → List ChooseResult
  | [] => []
  | e :: es =>
    let r := Mice.choose p cmap st e
    r :: Mice.runTrace p r.cmap r.state es

/-- `WeightedRandomConfig` from `weighted_random.rs`. -/
structure WeightedRandomConfig where
  gpu_probability : F

/-- A DispatchContext entry: the device last chosen for a function and the
decision time. -/
structure DispatchEntry where
  device : Compute
  time : ℚ
deriving DecidableEq, Repr

/-- Modelled from the spec: the shared `PolymDispatchCtx` (defined in the
queueing dispatcher module, outside the given sources) — a map from function
identity to its most recent dispatch decision and timestamp. -/
def PolymDispatchCtx := String → Option DispatchEntry

/-- Modelled from the spec: `select_device_for_fn(fqdn, device, timestamp)`
upserts the function's last-decision record. -/
def PolymDispatchCtx.select_device_for_fn (ctx : PolymDispatchCtx)
    (fqdn : String) (dev : Compute) (t : ℚ) : PolymDispatchCtx :=
  fun f => if f = fqdn then some { device := dev, time := t } else ctx f

/-- The GPU-selection probability used by `WeightedRandom::choose`: the
configured `gpu_probability`, or `0.85` when the configuration is unset. -/
def WeightedRandom.prob (config : Option WeightedRandomConfig) : F :=
  match config with
  | some cfg => cfg.gpu_probability
  | none => F.finite (17 / 20)

/-- `WeightedRandom::choose` as a pure function of the uniform draw `roll`:
route to GPU iff `roll < p` where `p` is the configured `gpu_probability` or
`0.85` when the configuration is unset; record the decision in the shared
dispatch context; return `NO_ESTIMATE` for both load and completion. -/
def WeightedRandom.choose (config : Option WeightedRandomConfig)
    (ctx : PolymDispatchCtx) (fqdn : String) (roll : F) (now : ℚ) :
    (Compute × F × F) × PolymDispatchCtx :=
  let gpu_probability := WeightedRandom.prob config
  let selected := if F.lt roll gpu_probability then Compute.GPU else Compute.CPU
  let ctx2 := ctx.select_device_for_fn fqdn selected now
  ((selected, NO_ESTIMATE, NO_ESTIMATE), ctx2)

/-- C1: a Mice decision routes to GPU iff the QueueMap has a GPU entry and
the resolved job size is strictly below the current threshold `tau`; in every
other case it routes to CPU. -/
theorem mice_routing_gpu_iff (p : Mice) (cmap : CharMap) (st : MiceState)
    (env : MiceEnv) :
    ((Mice.choose p cmap st env).dev = Compute.GPU ↔
      env.gpuQueue.isSome = true ∧
      F.lt (Mice.resolveSize cmap env).1 st.tau = true) ∧
    ((Mice.choose p cmap st env).dev = Compute.CPU ↔
      ¬(env.gpuQueue.isSome = true ∧
        F.lt (Mice.resolveSize cmap env).1 st.tau = true)) := by
  unfold Mice.choose
  dsimp only
  by_cases h : (env.gpuQueue.isSome &&
      F.lt (Mice.resolveSize cmap env).1 st.tau) = true
  · rw [Bool.and_eq_true] at h
    simp [h.1, h.2]
  · rw [Bool.and_eq_true] at h
    push_neg at h
    by_cases hg : env.gpuQueue.isSome = true
    · simp [hg, h hg]
    · simp [hg]

/-- C6: the job size used for routing is the filtered estimate `xhat` when it
is finite and positive, else the stored average `GpuExecTime` when that is
finite and positive, else exactly `1.0`. -/
theorem mice_job_size_fallback_chain (cmap : CharMap) (fid : String) (xhat : F) :
    Mice.job_size_est cmap fid xhat =
      (if xhat.isFinite = true ∧ F.lt (F.finite 0) xhat = true then xhat
       else if (cmap fid Chars.GpuExecTime).isFinite = true ∧
               F.lt (F.finite 0) (cmap fid Chars.GpuExecTime) = true then
         cmap fid Chars.GpuExecTime
       else F.finite 1) := by
  unfold Mice.job_size_est
  by_cases h1 : xhat.isFinite = true ∧ F.lt (F.finite 0) xhat = true
  · have h1b : (xhat.isFinite && F.lt (F.finite 0) xhat) = true := by
      rw [Bool.and_eq_true]
      exact h1
    simp [h1, h1b]
  · rw [if_neg h1]
    have h1b : (xhat.isFinite && F.lt (F.finite 0) xhat) = false := by
      rw [← Bool.not_eq_true, Bool.and_eq_true]
      exact h1
    rw [h1b]
    by_cases h2 : (cmap fid Chars.GpuExecTime).isFinite = true ∧
        F.lt (F.finite 0) (cmap fid Chars.GpuExecTime) = true
    · have h2b : ((cmap fid Chars.GpuExecTime).isFinite &&
          F.lt (F.finite 0) (cmap fid Chars.GpuExecTime)) = true := by
        rw [Bool.and_eq_true]
        exact h2
      simp [h2, h2b]
    · have h2b : ((cmap fid Chars.GpuExecTime).isFinite &&
          F.lt (F.finite 0) (cmap fid Chars.GpuExecTime)) = false := by
        rw [← Bool.not_eq_true, Bool.and_eq_true]
        exact h2
      simp [h2b, h2]

/-- A float is "invalid" in the spec's sense (non-finite or at most zero) iff
the source's guard `is_finite && (0 < v)` fails. -/
theorem F.invalid_iff (v : F) :
    (v.isFinite = false ∨ F.le v (F.finite 0) = true) ↔
      ¬(v.isFinite && F.lt (F.finite 0) v) = true := by
  cases v with
  | finite q =>
    simp [F.isFinite, F.le, F.lt, not_lt]
  | nan => simp [F.isFinite, F.le, F.lt]
  | inf => simp [F.isFinite, F.le, F.lt]
  | neginf => simp [F.isFinite, F.le, F.lt]

/-- C2: the estimator repairs each stored value that is non-finite or at most
zero to `max(rawEst, 0)`, takes `obs = rawEst` when that is finite and
positive and the repaired `prevEst` otherwise, blends with the fixed weights
`0.1 / 0.7 / 0.2` of the residual `z = prevE2E - prevEst`, and persists the
result under `EstGpu`; on `prevEst = 5`, `prevE2E = 6`, `rawEst = 5` it
returns `z = 1` and `xhat = 4.2`. -/
theorem mice_estimator_blend (cmap : CharMap) (fqdn : String) (rawEst : F) :
    ((Mice.get_gpu_est cmap fqdn rawEst).1 =
      (let prevEstRaw := cmap fqdn Chars.EstGpu
       let prevE2ERaw := cmap fqdn Chars.E2EGpu
       let prevEst :=
         if prevEstRaw.isFinite = false ∨ F.le prevEstRaw (F.finite 0) = true
         then F.max rawEst (F.finite 0) else prevEstRaw
       let prevE2E :=
         if prevE2ERaw.isFinite = false ∨ F.le prevE2ERaw (F.finite 0) = true
         then F.max rawEst (F.finite 0) else prevE2ERaw
       let obs :=
         if rawEst.isFinite = true ∧ F.lt (F.finite 0) rawEst = true then rawEst
         else prevEst
       let z := F.sub prevE2E prevEst
       let xhat := F.add (F.add (F.mul (F.finite (1 / 10)) prevEst)
         (F.mul (F.finite (7 / 10)) obs)) (F.mul (F.finite (2 / 10)) z)
       (xhat, z)) ∧
     (Mice.get_gpu_est cmap fqdn rawEst).2 fqdn Chars.EstGpu =
       (Mice.get_gpu_est cmap fqdn rawEst).1.1) ∧
    (Mice.get_gpu_est
        (fun _ c => match c with
          | Chars.EstGpu => F.finite 5
          | Chars.E2EGpu => F.finite 6
          | Chars.GpuExecTime => F.nan)
        "f" (F.finite 5)).1 = (F.finite (21 / 5), F.finite 1) := by
  refine ⟨⟨?_, ?_⟩, ?_⟩
  · have hk : F.sub (F.finite 1) (F.add (F.finite (7 / 10)) (F.finite (1 / 10))) =
        F.finite (2 / 10) := by
      simp [F.sub, F.add, F.neg]
      norm_num
    unfold Mice.get_gpu_est
    dsimp only
    simp only [F.invalid_iff, ite_not, ← Bool.and_eq_true, hk]
  · unfold Mice.get_gpu_est CharMap.update
    dsimp only
    simp
  · unfold Mice.get_gpu_est
    norm_num [F.isFinite, F.lt, F.le, F.add, F.sub, F.neg, F.mul, F.max]

theorem Mice.choose_size (p : Mice) (cmap : CharMap) (st : MiceState)
    (env : MiceEnv) :
    (Mice.choose p cmap st env).size = (Mice.resolveSize cmap env).1 := rfl

theorem Mice.choose_cmap (p : Mice) (cmap : CharMap) (st : MiceState)
    (env : MiceEnv) :
    (Mice.choose p cmap st env).cmap = (Mice.resolveSize cmap env).2 := rfl

theorem Mice.choose_gpuEst (p : Mice) (cmap : CharMap) (st : MiceState)
    (env : MiceEnv) :
    (Mice.choose p cmap st env).gpuEst = (Mice.queuePair env.gpuQueue).1 := rfl

theorem Mice.choose_gpuLoad (p : Mice) (cmap : CharMap) (st : MiceState)
    (env : MiceEnv) :
    (Mice.choose p cmap st env).gpuLoad = (Mice.queuePair env.gpuQueue).2 := rfl

theorem Mice.choose_cpuEst (p : Mice) (cmap : CharMap) (st : MiceState)
    (env : MiceEnv) :
    (Mice.choose p cmap st env).cpuEst = (Mice.queuePair env.cpuQueue).1 := rfl

theorem Mice.choose_cpuLoad (p : Mice) (cmap : CharMap) (st : MiceState)
    (env : MiceEnv) :
    (Mice.choose p cmap st env).cpuLoad = (Mice.queuePair env.cpuQueue).2 := rfl

theorem Mice.choose_gpuWarn (p : Mice) (cmap : CharMap) (st : MiceState)
    (env : MiceEnv) :
    (Mice.choose p cmap st env).gpuWarn = env.gpuQueue.isNone := rfl

theorem Mice.choose_cpuWarn (p : Mice) (cmap : CharMap) (st : MiceState)
    (env : MiceEnv) :
    (Mice.choose p cmap st env).cpuWarn = env.cpuQueue.isNone := rfl

theorem Mice.choose_state (p : Mice) (cmap : CharMap) (st : MiceState)
    (env : MiceEnv) :
    (Mice.choose p cmap st env).state =
      (Mice.epochCheck p
        (Mice.accumulate st
          (env.gpuQueue.isSome && F.lt (Mice.resolveSize cmap env).1 st.tau)
          (Mice.resolveSize cmap env).1) env.now).1 := rfl

theorem Mice.choose_epochClosed (p : Mice) (cmap : CharMap) (st : MiceState)
    (env : MiceEnv) :
    (Mice.choose p cmap st env).epochClosed =
      (Mice.epochCheck p
        (Mice.accumulate st
          (env.gpuQueue.isSome && F.lt (Mice.resolveSize cmap env).1 st.tau)
          (Mice.resolveSize cmap env).1) env.now).2 := rfl

theorem Mice.choose_dev (p : Mice) (cmap : CharMap) (st : MiceState)
    (env : MiceEnv) :
    (Mice.choose p cmap st env).dev =
      (if env.gpuQueue.isSome && F.lt (Mice.resolveSize cmap env).1 st.tau
       then Compute.GPU else Compute.CPU) := by
  cases h : (env.gpuQueue.isSome && F.lt (Mice.resolveSize cmap env).1 st.tau) <;>
    simp [Mice.choose, h]

theorem Mice.choose_load (p : Mice) (cmap : CharMap) (st : MiceState)
    (env : MiceEnv) :
    (Mice.choose p cmap st env).load =
      (if env.gpuQueue.isSome && F.lt (Mice.resolveSize cmap env).1 st.tau
       then (Mice.queuePair env.gpuQueue).2 else (Mice.queuePair env.cpuQueue).2) := by
  cases h : (env.gpuQueue.isSome && F.lt (Mice.resolveSize cmap env).1 st.tau) <;>
    simp [Mice.choose, h]

theorem Mice.choose_est (p : Mice) (cmap : CharMap) (st : MiceState)
    (env : MiceEnv) :
    (Mice.choose p cmap st env).est =
      (if env.gpuQueue.isSome && F.lt (Mice.resolveSize cmap env).1 st.tau
       then (Mice.queuePair env.gpuQueue).1 else (Mice.queuePair env.cpuQueue).1) := by
  cases h : (env.gpuQueue.isSome && F.lt (Mice.resolveSize cmap env).1 st.tau) <;>
    simp [Mice.choose, h]

theorem Mice.accumulate_count (st : MiceState) (u : Bool) (s : F) :
    (Mice.accumulate st u s).count = st.count + 1 := by
  cases u <;> simp [Mice.accumulate]

theorem Mice.accumulate_last_update (st : MiceState) (u : Bool) (s : F) :
    (Mice.accumulate st u s).last_update = st.last_update := by
  cases u <;> simp [Mice.accumulate]

theorem Mice.accumulate_tau (st : MiceState) (u : Bool) (s : F) :
    (Mice.accumulate st u s).tau = st.tau := by
  cases u <;> simp [Mice.accumulate]

theorem Mice.accumulate_gpu_work (st : MiceState) (u : Bool) (s : F) :
    (Mice.accumulate st u s).gpu_work =
      (if u then F.add st.gpu_work s else st.gpu_work) := by
  cases u <;> simp [Mice.accumulate]

theorem Mice.accumulate_cpu_work (st : MiceState) (u : Bool) (s : F) :
    (Mice.accumulate st u s).cpu_work =
      (if u then st.cpu_work else F.add st.cpu_work s) := by
  cases u <;> simp [Mice.accumulate]

theorem Mice.epochCheck_pos (p : Mice) (st : MiceState) (now : ℚ)
    (h1 : p.m ≤ st.count) (h2 : st.last_update < now) :
    Mice.epochCheck p st now = (Mice.epochClose p st now, true) := by
  simp [Mice.epochCheck, h1, h2]

theorem Mice.epochCheck_neg (p : Mice) (st : MiceState) (now : ℚ)
    (h : ¬(p.m ≤ st.count ∧ st.last_update < now)) :
    Mice.epochCheck p st now = (st, false) := by
  simp [Mice.epochCheck, h]

/-- Written from the spec's words (section 4.2, epoch-based threshold
adaptation) for comparison with the source's `Mice.epochClose`: with
`dt = max(now - last, 1e-6)`, `rho_gpu = gw / dt`, `rho_cpu = cw / dt`,
`rho = rho_gpu + rho_cpu` and `target = rho + 0.8 * rho^4 * (1 - rho)`, the
new threshold is `tau0 + 0.1` when `rho_gpu < target` and
`max(tau0 - 0.1, 0)` otherwise. -/
def specTargetRule (tau0 gw cw : F) (last now : ℚ) : F :=
  let dt := F.max (F.finite (now - last)) (F.finite (1 / 1000000))
  let rho_gpu := F.div gw dt
  let rho_cpu := F.div cw dt
  let rho := F.add rho_gpu rho_cpu
  let target := F.add rho
    (F.mul (F.mul (F.finite (4 / 5)) (F.powi rho 4)) (F.sub (F.finite 1) rho))
  if F.lt rho_gpu target then F.add tau0 (F.finite (1 / 10))
  else F.max (F.sub tau0 (F.finite (1 / 10))) (F.finite 0)

/-- C3: at every epoch close of the default Mice controller (the decision
reaches `count >= 100` with the epoch start strictly before `now`), the new
threshold follows the spec's target-load rule applied to the accumulated
workloads, with `alpha = 0.8` and `epsilon = 0.1`. -/
theorem mice_epoch_adjustment (cmap : CharMap) (st : MiceState) (env : MiceEnv)
    (hcount : 100 ≤ st.count + 1) (htime : st.last_update < env.now) :
    (Mice.choose Mice.new cmap st env).state.tau =
      specTargetRule st.tau
        (if (Mice.choose Mice.new cmap st env).dev = Compute.GPU
         then F.add st.gpu_work (Mice.choose Mice.new cmap st env).size
         else st.gpu_work)
        (if (Mice.choose Mice.new cmap st env).dev = Compute.CPU
         then F.add st.cpu_work (Mice.choose Mice.new cmap st env).size
         else st.cpu_work)
        st.last_update env.now := by
  rw [Mice.choose_state, Mice.choose_dev, Mice.choose_size]
  rw [Mice.epochCheck_pos]
  · cases h : (env.gpuQueue.isSome && F.lt (Mice.resolveSize cmap env).1 st.tau) <;>
      simp [Mice.accumulate, h, Mice.epochClose, specTargetRule, Mice.new]
  · rw [Mice.accumulate_count]
    exact hcount
  · rw [Mice.accumulate_last_update]
    exact htime

/-- A concrete characteristics store used by witnesses: every metric reads 0. -/
def wCmap : CharMap := fun _ _ => F.finite 0

/-- A concrete Mice state one decision away from the epoch boundary. -/
def wSt99 : MiceState :=
  { tau := F.finite 10, gpu_work := F.finite 0, cpu_work := F.finite 0,
    count := 99, last_update := 0 }

/-- A concrete environment with both queues missing and the clock at 1. -/
def wEnvNone : MiceEnv :=
  { gpuQueue := none, cpuQueue := none, now := 1, fqdn := "f" }

/-- Witness for C3: the epoch-adjustment theorem applied at a concrete
closing decision. -/
theorem mice_epoch_adjustment_witness :
    100 ≤ wSt99.count + 1 ∧ wSt99.last_update < wEnvNone.now ∧
    (Mice.choose Mice.new wCmap wSt99 wEnvNone).state.tau =
      specTargetRule wSt99.tau
        (if (Mice.choose Mice.new wCmap wSt99 wEnvNone).dev = Compute.GPU
         then F.add wSt99.gpu_work (Mice.choose Mice.new wCmap wSt99 wEnvNone).size
         else wSt99.gpu_work)
        (if (Mice.choose Mice.new wCmap wSt99 wEnvNone).dev = Compute.CPU
         then F.add wSt99.cpu_work (Mice.choose Mice.new wCmap wSt99 wEnvNone).size
         else wSt99.cpu_work)
        wSt99.last_update wEnvNone.now :=
  ⟨by norm_num [wSt99], by norm_num [wSt99, wEnvNone],
    mice_epoch_adjustment wCmap wSt99 wEnvNone (by norm_num [wSt99])
      (by norm_num [wSt99, wEnvNone])⟩

/-- One decision of the default controller preserves "tau is a nonnegative
finite value". -/
theorem Mice.tau_nonneg_step (cmap : CharMap) (st : MiceState) (env : MiceEnv)
    (h : ∃ q : ℚ, 0 ≤ q ∧ st.tau = F.finite q) :
    ∃ q : ℚ, 0 ≤ q ∧ (Mice.choose Mice.new cmap st env).state.tau = F.finite q := by
  obtain ⟨q, hq, htau⟩ := h
  rw [Mice.choose_state]
  have htauA : (Mice.accumulate st
      (env.gpuQueue.isSome && F.lt (Mice.resolveSize cmap env).1 st.tau)
      (Mice.resolveSize cmap env).1).tau = F.finite q := by
    rw [Mice.accumulate_tau, htau]
  unfold Mice.epochCheck
  split
  · unfold Mice.epochClose
    dsimp only
    split
    · exact ⟨q + 1 / 10, by linarith, by rw [htauA]; rfl⟩
    · exact ⟨Max.max (q + -(1 / 10)) 0, le_max_right _ _, by rw [htauA]; rfl⟩
  · exact ⟨q, hq, htauA⟩

/-- Any run of the default controller preserves "tau is a nonnegative finite
value". -/
theorem Mice.tau_nonneg_run (envs : List MiceEnv) :
    ∀ (cmap : CharMap) (st : MiceState),
      (∃ q : ℚ, 0 ≤ q ∧ st.tau = F.finite q) →
      ∃ q : ℚ, 0 ≤ q ∧ (Mice.run Mice.new cmap st envs).2.tau = F.finite q := by
  induction envs with
  | nil => intro cmap st h; exact h
  | cons e es ih =>
    intro cmap st h
    exact ih _ _ (Mice.tau_nonneg_step cmap st e h)

/-- C4: starting from construction (`tau = 10.0`), after any sequence of
decisions the threshold is still at least 0 — every mutation either adds
`epsilon` or takes `max(tau - epsilon, 0)`. -/
theorem mice_tau_nonneg (t0 : ℚ) (cmap : CharMap) (envs : List MiceEnv) :
    F.le (F.finite 0) (Mice.run Mice.new cmap (MiceState.new t0) envs).2.tau = true := by
  obtain ⟨q, hq, htau⟩ :=
    Mice.tau_nonneg_run envs cmap (MiceState.new t0) ⟨10, by norm_num, rfl⟩
  rw [htau]
  simpa [F.le] using hq

/-- A decision strictly inside an epoch (fewer than `m` jobs even after this
one) performs no threshold adjustment: `count` increments and `last_update`
is untouched. -/
theorem Mice.choose_noClose (p : Mice) (cmap : CharMap) (st : MiceState)
    (env : MiceEnv) (h : st.count + 1 < p.m) :
    (Mice.choose p cmap st env).epochClosed = false ∧
    (Mice.choose p cmap st env).state.count = st.count + 1 ∧
    (Mice.choose p cmap st env).state.last_update = st.last_update := by
  rw [Mice.choose_epochClosed, Mice.choose_state, Mice.epochCheck_neg]
  · exact ⟨rfl, Mice.accumulate_count _ _ _, Mice.accumulate_last_update _ _ _⟩
  · rw [Mice.accumulate_count]
    intro hc
    omega

/-- A decision that reaches the epoch boundary (`count >= m` after this one,
epoch start strictly before now) adjusts the threshold exactly once and
resets the accumulators and the epoch clock. -/
theorem Mice.choose_close (p : Mice) (cmap : CharMap) (st : MiceState)
    (env : MiceEnv) (h1 : p.m ≤ st.count + 1) (h2 : st.last_update < env.now) :
    (Mice.choose p cmap st env).epochClosed = true ∧
    (Mice.choose p cmap st env).state.gpu_work = F.finite 0 ∧
    (Mice.choose p cmap st env).state.cpu_work = F.finite 0 ∧
    (Mice.choose p cmap st env).state.count = 0 ∧
    (Mice.choose p cmap st env).state.last_update = env.now := by
  rw [Mice.choose_epochClosed, Mice.choose_state, Mice.epochCheck_pos]
  · exact ⟨rfl, rfl, rfl, rfl, rfl⟩
  · rw [Mice.accumulate_count]
    exact h1
  · rw [Mice.accumulate_last_update]
    exact h2

theorem Mice.run_append (p : Mice) (l1 l2 : List MiceEnv) :
    ∀ (cmap : CharMap) (st : MiceState),
      Mice.run p cmap st (l1 ++ l2) =
        Mice.run p (Mice.run p cmap st l1).1 (Mice.run p cmap st l1).2 l2 := by
  induction l1 with
  | nil => intro cmap st; rfl
  | cons e es ih => intro cmap st; simpa [Mice.run] using ih _ _

theorem Mice.runTrace_append (p : Mice) (l1 l2 : List MiceEnv) :
    ∀ (cmap : CharMap) (st : MiceState),
      Mice.runTrace p cmap st (l1 ++ l2) =
        Mice.runTrace p cmap st l1 ++
          Mice.runTrace p (Mice.run p cmap st l1).1 (Mice.run p cmap st l1).2 l2 := by
  induction l1 with
  | nil => intro cmap st; rfl
  | cons e es ih => intro cmap st; simpa [Mice.runTrace, Mice.run] using ih _ _

/-- A run that stays strictly inside one epoch performs no threshold
adjustment, counts every decision, and keeps the epoch start time. -/
theorem Mice.runTrace_noClose (p : Mice) (envs : List MiceEnv) :
    ∀ (cmap : CharMap) (st : MiceState), st.count + envs.length < p.m →
      (Mice.runTrace p cmap st envs).countP (fun r => r.epochClosed) = 0 ∧
      (Mice.run p cmap st envs).2.count = st.count + envs.length ∧
      (Mice.run p cmap st envs).2.last_update = st.last_update := by
  induction envs with
  | nil =>
    intro cmap st _
    simp [Mice.runTrace, Mice.run]
  | cons e es ih =>
    intro cmap st h
    have hstep := Mice.choose_noClose p cmap st e (by simp at h; omega)
    have hrest := ih (Mice.choose p cmap st e).cmap (Mice.choose p cmap st e).state
      (by rw [hstep.2.1]; simp at h ⊢; omega)
    refine ⟨?_, ?_, ?_⟩
    · simp [Mice.runTrace, List.countP_cons, hstep.1, hrest.1]
    · show (Mice.run p (Mice.choose p cmap st e).cmap
        (Mice.choose p cmap st e).state es).2.count = _
      rw [hrest.2.1, hstep.2.1]
      simp
      omega
    · show (Mice.run p (Mice.choose p cmap st e).cmap
        (Mice.choose p cmap st e).state es).2.last_update = _
      rw [hrest.2.2, hstep.2.2]

/-- C5: across 100 consecutive decisions on one default controller starting a
fresh epoch, exactly one threshold adjustment occurs — at the 100th decision,
provided the epoch start is strictly before that decision's clock reading —
and immediately after it the accumulators read `gpu_work = 0`,
`cpu_work = 0`, `count = 0` and `last_update` is the closing clock reading. -/
theorem mice_epoch_atomicity (cmap : CharMap) (st : MiceState)
    (envs : List MiceEnv) (e : MiceEnv) (h0 : st.count = 0)
    (hlen : envs.length = 99) (hlt : st.last_update < e.now) :
    (Mice.runTrace Mice.new cmap st (envs ++ [e])).countP
        (fun r => r.epochClosed) = 1 ∧
    (Mice.run Mice.new cmap st (envs ++ [e])).2.gpu_work = F.finite 0 ∧
    (Mice.run Mice.new cmap st (envs ++ [e])).2.cpu_work = F.finite 0 ∧
    (Mice.run Mice.new cmap st (envs ++ [e])).2.count = 0 ∧
    (Mice.run Mice.new cmap st (envs ++ [e])).2.last_update = e.now := by
  have hpre := Mice.runTrace_noClose Mice.new envs cmap st
    (by rw [h0, hlen]; norm_num [Mice.new])
  set mid := Mice.run Mice.new cmap st envs with hmid
  have hcnt : mid.2.count = 99 := by rw [hpre.2.1, h0, hlen]
  have hlast : mid.2.last_update = st.last_update := hpre.2.2
  have hfin := Mice.choose_close Mice.new mid.1 mid.2 e
    (by rw [hcnt]; norm_num [Mice.new]) (by rw [hlast]; exact hlt)
  rw [Mice.runTrace_append, Mice.run_append]
  refine ⟨?_, ?_, ?_, ?_, ?_⟩
  · rw [List.countP_append, hpre.1]
    simp [Mice.runTrace, Mice.run, List.countP_cons, hfin.1]
  · simpa [Mice.run] using hfin.2.1
  · simpa [Mice.run] using hfin.2.2.1
  · simpa [Mice.run] using hfin.2.2.2.1
  · simpa [Mice.run] using hfin.2.2.2.2

/-- Witness for C5: the epoch-atomicity theorem applied to 100 concrete
decisions from a fresh epoch. -/
theorem mice_epoch_atomicity_witness :
    (MiceState.new 0).count = 0 ∧
    (List.replicate 99 wEnvNone).length = 99 ∧
    (MiceState.new 0).last_update < wEnvNone.now ∧
    ((Mice.runTrace Mice.new wCmap (MiceState.new 0)
        (List.replicate 99 wEnvNone ++ [wEnvNone])).countP
        (fun r => r.epochClosed) = 1 ∧
     (Mice.run Mice.new wCmap (MiceState.new 0)
        (List.replicate 99 wEnvNone ++ [wEnvNone])).2.gpu_work = F.finite 0 ∧
     (Mice.run Mice.new wCmap (MiceState.new 0)
        (List.replicate 99 wEnvNone ++ [wEnvNone])).2.cpu_work = F.finite 0 ∧
     (Mice.run Mice.new wCmap (MiceState.new 0)
        (List.replicate 99 wEnvNone ++ [wEnvNone])).2.count = 0 ∧
     (Mice.run Mice.new wCmap (MiceState.new 0)
        (List.replicate 99 wEnvNone ++ [wEnvNone])).2.last_update = wEnvNone.now) :=
  ⟨rfl, by simp, by norm_num [MiceState.new, wEnvNone],
    mice_epoch_atomicity wCmap (MiceState.new 0) (List.replicate 99 wEnvNone)
      wEnvNone rfl (by simp) (by norm_num [MiceState.new, wEnvNone])⟩

/-- C7: a Mice call with a missing QueueMap entry for a device class does
not fail: the missing class's completion estimate and load take the
`NO_ESTIMATE` sentinel and its missing-queue warning fires (for GPU and CPU
alike); when the missing class is GPU the decision is CPU and the job size is
accumulated into `cpu_work` with the usual count increment and epoch check. -/
theorem mice_missing_queue_degrades (p : Mice) (cmap : CharMap) (st : MiceState)
    (env : MiceEnv) :
    (env.gpuQueue = none →
      (Mice.choose p cmap st env).gpuEst = NO_ESTIMATE ∧
      (Mice.choose p cmap st env).gpuLoad = NO_ESTIMATE ∧
      (Mice.choose p cmap st env).gpuWarn = true ∧
      (Mice.choose p cmap st env).dev = Compute.CPU ∧
      (Mice.choose p cmap st env).state =
        (Mice.epochCheck p
          { st with
              cpu_work := F.add st.cpu_work (Mice.choose p cmap st env).size,
              count := st.count + 1 } env.now).1) ∧
    (env.cpuQueue = none →
      (Mice.choose p cmap st env).cpuEst = NO_ESTIMATE ∧
      (Mice.choose p cmap st env).cpuLoad = NO_ESTIMATE ∧
      (Mice.choose p cmap st env).cpuWarn = true) := by
  constructor
  · intro h
    have hu : (env.gpuQueue.isSome &&
        F.lt (Mice.resolveSize cmap env).1 st.tau) = false := by
      rw [h]
      rfl
    refine ⟨?_, ?_, ?_, ?_, ?_⟩
    · rw [Mice.choose_gpuEst, h]
      rfl
    · rw [Mice.choose_gpuLoad, h]
      rfl
    · rw [Mice.choose_gpuWarn, h]
      rfl
    · rw [Mice.choose_dev, hu]
      rfl
    · rw [Mice.choose_state, hu, Mice.choose_size]
      rfl
  · intro h
    refine ⟨?_, ?_, ?_⟩
    · rw [Mice.choose_cpuEst, h]
      rfl
    · rw [Mice.choose_cpuLoad, h]
      rfl
    · rw [Mice.choose_cpuWarn, h]
      rfl

/-- Witness for C7: the missing-queue theorem applied at a concrete
environment missing both queue entries, discharging both hypotheses. -/
theorem mice_missing_queue_degrades_witness :
    wEnvNone.gpuQueue = none ∧ wEnvNone.cpuQueue = none ∧
    ((Mice.choose Mice.new wCmap (MiceState.new 0) wEnvNone).gpuEst = NO_ESTIMATE ∧
     (Mice.choose Mice.new wCmap (MiceState.new 0) wEnvNone).gpuLoad = NO_ESTIMATE ∧
     (Mice.choose Mice.new wCmap (MiceState.new 0) wEnvNone).gpuWarn = true ∧
     (Mice.choose Mice.new wCmap (MiceState.new 0) wEnvNone).dev = Compute.CPU ∧
     (Mice.choose Mice.new wCmap (MiceState.new 0) wEnvNone).state =
       (Mice.epochCheck Mice.new
         { MiceState.new 0 with
             cpu_work := F.add (MiceState.new 0).cpu_work
               (Mice.choose Mice.new wCmap (MiceState.new 0) wEnvNone).size,
             count := (MiceState.new 0).count + 1 } wEnvNone.now).1) ∧
    ((Mice.choose Mice.new wCmap (MiceState.new 0) wEnvNone).cpuEst = NO_ESTIMATE ∧
     (Mice.choose Mice.new wCmap (MiceState.new 0) wEnvNone).cpuLoad = NO_ESTIMATE ∧
     (Mice.choose Mice.new wCmap (MiceState.new 0) wEnvNone).cpuWarn = true) :=
  ⟨rfl, rfl,
    (mice_missing_queue_degrades Mice.new wCmap (MiceState.new 0) wEnvNone).1 rfl,
    (mice_missing_queue_degrades Mice.new wCmap (MiceState.new 0) wEnvNone).2 rfl⟩

/-- If `a <= b` holds on floats then `b < a` is false. -/
theorem F.lt_eq_false_of_le (a b : F) (h : F.le a b = true) :
    F.lt b a = false := by
  cases a <;> cases b <;> simp_all [F.le, F.lt, not_lt]

/-- C8: a WeightedRandom decision with uniform draw `roll` in `[0, 1)` picks
GPU iff `roll < p` (`p` the configured probability, `0.85` when unset), both
returned estimates are the `NO_ESTIMATE` sentinel, and the chosen device and
decision time are recorded in the shared dispatch context; with `p = 1.0`
the decision is always GPU and with `p = 0.0` always CPU. -/
theorem weighted_random_spec (config : Option WeightedRandomConfig)
    (ctx : PolymDispatchCtx) (fqdn : String) (roll : F) (now : ℚ)
    (h0 : F.le (F.finite 0) roll = true) (h1 : F.lt roll (F.finite 1) = true) :
    ((WeightedRandom.choose config ctx fqdn roll now).1.1 = Compute.GPU ↔
      F.lt roll (WeightedRandom.prob config) = true) ∧
    (WeightedRandom.choose config ctx fqdn roll now).1.2.1 = NO_ESTIMATE ∧
    (WeightedRandom.choose config ctx fqdn roll now).1.2.2 = NO_ESTIMATE ∧
    (WeightedRandom.choose config ctx fqdn roll now).2 fqdn =
      some { device := (WeightedRandom.choose config ctx fqdn roll now).1.1,
             time := now } ∧
    (WeightedRandom.prob config = F.finite 1 →
      (WeightedRandom.choose config ctx fqdn roll now).1.1 = Compute.GPU) ∧
    (WeightedRandom.prob config = F.finite 0 →
      (WeightedRandom.choose config ctx fqdn roll now).1.1 = Compute.CPU) := by
  refine ⟨?_, rfl, rfl, ?_, ?_, ?_⟩
  · unfold WeightedRandom.choose
    dsimp only
    cases h : F.lt roll (WeightedRandom.prob config) <;> simp [h]
  · unfold WeightedRandom.choose PolymDispatchCtx.select_device_for_fn
    simp
  · intro hp
    unfold WeightedRandom.choose
    dsimp only
    rw [hp, h1]
    rfl
  · intro hp
    unfold WeightedRandom.choose
    dsimp only
    rw [hp, F.lt_eq_false_of_le _ _ h0]
    rfl

/-- Witness for C8: the WeightedRandom theorem applied at an unset
configuration and a concrete roll of 0. -/
theorem weighted_random_spec_witness :
    F.le (F.finite 0) (F.finite 0) = true ∧
    F.lt (F.finite 0) (F.finite 1) = true ∧
    ((WeightedRandom.choose none (fun _ => none) "f" (F.finite 0) 0).1.1 =
        Compute.GPU ↔
      F.lt (F.finite 0) (WeightedRandom.prob none) = true) ∧
    (WeightedRandom.choose none (fun _ => none) "f" (F.finite 0) 0).1.2.1 =
      NO_ESTIMATE ∧
    (WeightedRandom.choose none (fun _ => none) "f" (F.finite 0) 0).1.2.2 =
      NO_ESTIMATE ∧
    (WeightedRandom.choose none (fun _ => none) "f" (F.finite 0) 0).2 "f" =
      some { device :=
               (WeightedRandom.choose none (fun _ => none) "f" (F.finite 0) 0).1.1,
             time := 0 } ∧
    (WeightedRandom.prob none = F.finite 1 →
      (WeightedRandom.choose none (fun _ => none) "f" (F.finite 0) 0).1.1 =
        Compute.GPU) ∧
    (WeightedRandom.prob none = F.finite 0 →
      (WeightedRandom.choose none (fun _ => none) "f" (F.finite 0) 0).1.1 =
        Compute.CPU) :=
  ⟨by norm_num [F.le], by norm_num [F.lt],
    (weighted_random_spec none (fun _ => none) "f" (F.finite 0) 0
      (by norm_num [F.le]) (by norm_num [F.lt])).1,
    (weighted_random_spec none (fun _ => none) "f" (F.finite 0) 0
      (by norm_num [F.le]) (by norm_num [F.lt])).2.1,
    (weighted_random_spec none (fun _ => none) "f" (F.finite 0) 0
      (by norm_num [F.le]) (by norm_num [F.lt])).2.2.1,
    (weighted_random_spec none (fun _ => none) "f" (F.finite 0) 0
      (by norm_num [F.le]) (by norm_num [F.lt])).2.2.2.1,
    (weighted_random_spec none (fun _ => none) "f" (F.finite 0) 0
      (by norm_num [F.le]) (by norm_num [F.lt])).2.2.2.2.1,
    (weighted_random_spec none (fun _ => none) "f" (F.finite 0) 0
      (by norm_num [F.le]) (by norm_num [F.lt])).2.2.2.2.2⟩

/-- A float passing the source's validity guard is a positive finite value. -/
theorem F.pos_of_guard (v : F) (h : (v.isFinite && F.lt (F.finite 0) v) = true) :
    ∃ q : ℚ, 0 < q ∧ v = F.finite q := by
  cases v with
  | finite q => exact ⟨q, by simpa [F.isFinite, F.lt] using h, rfl⟩
  | nan => simp [F.isFinite] at h
  | inf => simp [F.isFinite] at h
  | neginf => simp [F.isFinite] at h

/-- Every branch of `job_size_est` yields a finite, strictly positive size. -/
theorem Mice.job_size_est_pos (cmap : CharMap) (fid : String) (x : F) :
    ∃ qs : ℚ, 0 < qs ∧ Mice.job_size_est cmap fid x = F.finite qs := by
  unfold Mice.job_size_est
  split
  · rename_i h
    exact F.pos_of_guard _ h
  · dsimp only
    split
    · rename_i h2
      exact F.pos_of_guard _ h2
    · exact ⟨1, one_pos, rfl⟩

/-- The resolved job size of any Mice decision is finite and positive. -/
theorem Mice.resolveSize_pos (cmap : CharMap) (env : MiceEnv) :
    ∃ qs : ℚ, 0 < qs ∧ (Mice.resolveSize cmap env).1 = F.finite qs := by
  unfold Mice.resolveSize
  exact Mice.job_size_est_pos _ _ _

theorem Mice.epochCheck_fst_of_snd_false (p : Mice) (st : MiceState) (now : ℚ)
    (h : (Mice.epochCheck p st now).2 = false) :
    (Mice.epochCheck p st now).1 = st := by
  by_cases hc : p.m ≤ st.count ∧ st.last_update < now
  · simp [Mice.epochCheck, hc] at h
  · simp [Mice.epochCheck, hc]

theorem Mice.epochCheck_fst_of_snd_true (p : Mice) (st : MiceState) (now : ℚ)
    (h : (Mice.epochCheck p st now).2 = true) :
    (Mice.epochCheck p st now).1 = Mice.epochClose p st now := by
  by_cases hc : p.m ≤ st.count ∧ st.last_update < now
  · simp [Mice.epochCheck, hc]
  · simp [Mice.epochCheck, hc] at h

/-- Nonnegative finite floats satisfy the embedded `0 <= x` test. -/
theorem F.le_zero_finite (q : ℚ) (h : 0 ≤ q) :
    F.le (F.finite 0) (F.finite q) = true := by
  simpa [F.le] using h

/-- One decision of the default controller preserves "both accumulators are
nonnegative finite values". -/
theorem Mice.works_nonneg_step (cmap : CharMap) (st : MiceState) (env : MiceEnv)
    (h : (∃ qg : ℚ, 0 ≤ qg ∧ st.gpu_work = F.finite qg) ∧
         (∃ qc : ℚ, 0 ≤ qc ∧ st.cpu_work = F.finite qc)) :
    (∃ qg : ℚ, 0 ≤ qg ∧
        (Mice.choose Mice.new cmap st env).state.gpu_work = F.finite qg) ∧
    (∃ qc : ℚ, 0 ≤ qc ∧
        (Mice.choose Mice.new cmap st env).state.cpu_work = F.finite qc) := by
  obtain ⟨⟨qg, hqg, hg⟩, ⟨qc, hqc, hc⟩⟩ := h
  obtain ⟨qs, hqs, hs⟩ := Mice.resolveSize_pos cmap env
  rw [Mice.choose_state]
  unfold Mice.epochCheck
  split
  · exact ⟨⟨0, le_refl 0, rfl⟩, ⟨0, le_refl 0, rfl⟩⟩
  · rw [Mice.accumulate_gpu_work, Mice.accumulate_cpu_work]
    cases hu : (env.gpuQueue.isSome && F.lt (Mice.resolveSize cmap env).1 st.tau)
    · refine ⟨⟨qg, hqg, by simp [hg]⟩, ⟨qc + qs, by linarith, ?_⟩⟩
      simp only [if_neg Bool.false_ne_true, hc, hs]
      rfl
    · refine ⟨⟨qg + qs, by linarith, ?_⟩, ⟨qc, hqc, by simp [hc]⟩⟩
      simp only [if_pos rfl, hg, hs]
      rfl

/-- Any run of the default controller preserves "both accumulators are
nonnegative finite values". -/
theorem Mice.works_nonneg_run (envs : List MiceEnv) :
    ∀ (cmap : CharMap) (st : MiceState),
      ((∃ qg : ℚ, 0 ≤ qg ∧ st.gpu_work = F.finite qg) ∧
       (∃ qc : ℚ, 0 ≤ qc ∧ st.cpu_work = F.finite qc)) →
      ((∃ qg : ℚ, 0 ≤ qg ∧
          (Mice.run Mice.new cmap st envs).2.gpu_work = F.finite qg) ∧
       (∃ qc : ℚ, 0 ≤ qc ∧
          (Mice.run Mice.new cmap st envs).2.cpu_work = F.finite qc)) := by
  induction envs with
  | nil => intro cmap st h; exact h
  | cons e es ih =>
    intro cmap st h
    exact ih _ _ (Mice.works_nonneg_step cmap st e h)

/-- Counterexample for C9 as stated: at the 100th decision of a concrete run
from construction (a reachable, epoch-closing decision), `count` goes from 99
to 0 — not incremented by exactly 1 — because the epoch close resets the
accumulators in the same decision. -/
theorem mice_count_reset_counterexample :
    (Mice.run Mice.new wCmap (MiceState.new 0)
        (List.replicate 99 wEnvNone)).2.count = 99 ∧
    (Mice.choose Mice.new
        (Mice.run Mice.new wCmap (MiceState.new 0) (List.replicate 99 wEnvNone)).1
        (Mice.run Mice.new wCmap (MiceState.new 0) (List.replicate 99 wEnvNone)).2
        wEnvNone).state.count = 0 := by
  have hpre := Mice.runTrace_noClose Mice.new (List.replicate 99 wEnvNone)
    wCmap (MiceState.new 0) (by simp [MiceState.new, Mice.new])
  have h99 : (Mice.run Mice.new wCmap (MiceState.new 0)
      (List.replicate 99 wEnvNone)).2.count = 99 := by
    rw [hpre.2.1]
    simp [MiceState.new]
  refine ⟨h99, ?_⟩
  have hfin := Mice.choose_close Mice.new
    (Mice.run Mice.new wCmap (MiceState.new 0) (List.replicate 99 wEnvNone)).1
    (Mice.run Mice.new wCmap (MiceState.new 0) (List.replicate 99 wEnvNone)).2
    wEnvNone (by rw [h99]; norm_num [Mice.new])
    (by rw [hpre.2.2]; norm_num [MiceState.new, wEnvNone])
  exact hfin.2.2.2.1

/-- C9 (amended): for every decision from a reachable state of the default
controller, the resolved job size is finite and strictly positive and both
accumulators are nonnegative before and after the decision; when the decision
does not close the epoch it strictly increases exactly the accumulator of the
chosen device and increments `count` by exactly 1; when it closes the epoch,
`gpu_work`, `cpu_work` and `count` are reset to 0. -/
theorem mice_decision_effects (cmap : CharMap) (st : MiceState) (env : MiceEnv)
    (hreach : ∃ (t0 : ℚ) (cmap0 : CharMap) (envs : List MiceEnv),
      (cmap, st) = Mice.run Mice.new cmap0 (MiceState.new t0) envs) :
    ((Mice.choose Mice.new cmap st env).size.isFinite = true ∧
     F.lt (F.finite 0) (Mice.choose Mice.new cmap st env).size = true) ∧
    (F.le (F.finite 0) st.gpu_work = true ∧
     F.le (F.finite 0) st.cpu_work = true) ∧
    ((Mice.choose Mice.new cmap st env).epochClosed = false →
      (Mice.choose Mice.new cmap st env).state.count = st.count + 1 ∧
      ((Mice.choose Mice.new cmap st env).dev = Compute.GPU →
        F.lt st.gpu_work (Mice.choose Mice.new cmap st env).state.gpu_work = true ∧
        (Mice.choose Mice.new cmap st env).state.cpu_work = st.cpu_work) ∧
      ((Mice.choose Mice.new cmap st env).dev = Compute.CPU →
        F.lt st.cpu_work (Mice.choose Mice.new cmap st env).state.cpu_work = true ∧
        (Mice.choose Mice.new cmap st env).state.gpu_work = st.gpu_work)) ∧
    ((Mice.choose Mice.new cmap st env).epochClosed = true →
      (Mice.choose Mice.new cmap st env).state.gpu_work = F.finite 0 ∧
      (Mice.choose Mice.new cmap st env).state.cpu_work = F.finite 0 ∧
      (Mice.choose Mice.new cmap st env).state.count = 0) ∧
    (F.le (F.finite 0) (Mice.choose Mice.new cmap st env).state.gpu_work = true ∧
     F.le (F.finite 0) (Mice.choose Mice.new cmap st env).state.cpu_work = true) := by
  obtain ⟨t0, cmap0, envs, heq⟩ := hreach
  have hworks : (∃ qg : ℚ, 0 ≤ qg ∧ st.gpu_work = F.finite qg) ∧
      (∃ qc : ℚ, 0 ≤ qc ∧ st.cpu_work = F.finite qc) := by
    have := Mice.works_nonneg_run envs cmap0 (MiceState.new t0)
      ⟨⟨0, le_refl 0, rfl⟩, ⟨0, le_refl 0, rfl⟩⟩
    have hst : st = (Mice.run Mice.new cmap0 (MiceState.new t0) envs).2 := by
      rw [← heq]
    rw [hst]
    exact this
  obtain ⟨⟨qg, hqg, hg⟩, ⟨qc, hqc, hc⟩⟩ := hworks
  obtain ⟨qs, hqs, hs⟩ := Mice.resolveSize_pos cmap env
  have hsize : (Mice.choose Mice.new cmap st env).size = F.finite qs := by
    rw [Mice.choose_size, hs]
  have hpost := Mice.works_nonneg_step cmap st env
    ⟨⟨qg, hqg, hg⟩, ⟨qc, hqc, hc⟩⟩
  obtain ⟨⟨qg2, hqg2, hg2⟩, ⟨qc2, hqc2, hc2⟩⟩ := hpost
  refine ⟨⟨?_, ?_⟩, ⟨?_, ?_⟩, ?_, ?_, ?_, ?_⟩
  · rw [hsize]
    rfl
  · rw [hsize]
    simpa [F.lt] using hqs
  · rw [hg]
    exact F.le_zero_finite qg hqg
  · rw [hc]
    exact F.le_zero_finite qc hqc
  · intro hnc
    rw [Mice.choose_epochClosed] at hnc
    have hst1 := Mice.epochCheck_fst_of_snd_false _ _ _ hnc
    rw [Mice.choose_state, hst1]
    refine ⟨Mice.accumulate_count _ _ _, ?_, ?_⟩
    · intro hdev
      rw [Mice.choose_dev] at hdev
      have hu : (env.gpuQueue.isSome &&
          F.lt (Mice.resolveSize cmap env).1 st.tau) = true := by
        by_contra hfalse
        rw [Bool.not_eq_true] at hfalse
        rw [hfalse] at hdev
        simp at hdev
      rw [Mice.accumulate_gpu_work, Mice.accumulate_cpu_work, hu]
      constructor
      · rw [if_pos rfl, hg, hs]
        show F.lt (F.finite qg) (F.finite (qg + qs)) = true
        simp [F.lt]
        linarith
      · rw [if_pos rfl]
    · intro hdev
      rw [Mice.choose_dev] at hdev
      have hu : (env.gpuQueue.isSome &&
          F.lt (Mice.resolveSize cmap env).1 st.tau) = false := by
        by_contra hfalse
        rw [Bool.not_eq_false] at hfalse
        rw [hfalse] at hdev
        simp at hdev
      rw [Mice.accumulate_gpu_work, Mice.accumulate_cpu_work, hu]
      constructor
      · rw [if_neg Bool.false_ne_true, hc, hs]
        show F.lt (F.finite qc) (F.finite (qc + qs)) = true
        simp [F.lt]
        linarith
      · rw [if_neg Bool.false_ne_true]
  · intro hcl
    rw [Mice.choose_epochClosed] at hcl
    have hst1 := Mice.epochCheck_fst_of_snd_true _ _ _ hcl
    rw [Mice.choose_state, hst1]
    exact ⟨rfl, rfl, rfl⟩
  · rw [hg2]
    exact F.le_zero_finite qg2 hqg2
  · rw [hc2]
    exact F.le_zero_finite qc2 hqc2

/-- Witness for C9 (amended): the decision-effects theorem applied at the
freshly constructed controller state, which is reachable by the empty run. -/
theorem mice_decision_effects_witness :
    (∃ (t0 : ℚ) (cmap0 : CharMap) (envs : List MiceEnv),
      (wCmap, MiceState.new 0) = Mice.run Mice.new cmap0 (MiceState.new t0) envs) ∧
    (Mice.choose Mice.new wCmap (MiceState.new 0) wEnvNone).size.isFinite = true ∧
    F.lt (F.finite 0)
      (Mice.choose Mice.new wCmap (MiceState.new 0) wEnvNone).size = true :=
  ⟨⟨0, wCmap, [], rfl⟩,
    (mice_decision_effects wCmap (MiceState.new 0) wEnvNone ⟨0, wCmap, [], rfl⟩).1⟩

/-- C10: when the raw estimate is NaN or a finite value at most 0 (for
instance the sentinel substituted when the GPU queue is missing) and both
stored `EstGpu` and `E2EGpu` averages are invalid, the estimator repairs both
priors to 0, observes 0, computes residual 0, returns and persists
`xhat = 0`, and the decision's job size then falls back to the recorded
`GpuExecTime` average or to `1.0`. -/
theorem mice_estimator_degenerate (cmap : CharMap) (fqdn : String) (rawEst : F)
    (hraw : rawEst = F.nan ∨
      (rawEst.isFinite = true ∧ F.le rawEst (F.finite 0) = true))
    (hest : ¬((cmap fqdn Chars.EstGpu).isFinite = true ∧
      F.lt (F.finite 0) (cmap fqdn Chars.EstGpu) = true))
    (he2e : ¬((cmap fqdn Chars.E2EGpu).isFinite = true ∧
      F.lt (F.finite 0) (cmap fqdn Chars.E2EGpu) = true)) :
    (Mice.get_gpu_est cmap fqdn rawEst).1 = (F.finite 0, F.finite 0) ∧
    (Mice.get_gpu_est cmap fqdn rawEst).2 fqdn Chars.EstGpu = F.finite 0 ∧
    Mice.job_size_est (Mice.get_gpu_est cmap fqdn rawEst).2 fqdn
        (Mice.get_gpu_est cmap fqdn rawEst).1.1 =
      (if (cmap fqdn Chars.GpuExecTime).isFinite = true ∧
          F.lt (F.finite 0) (cmap fqdn Chars.GpuExecTime) = true
       then cmap fqdn Chars.GpuExecTime else F.finite 1) := by
  have g1 : ((cmap fqdn Chars.EstGpu).isFinite &&
      F.lt (F.finite 0) (cmap fqdn Chars.EstGpu)) = false := by
    rw [← Bool.not_eq_true, Bool.and_eq_true]
    exact hest
  have g2 : ((cmap fqdn Chars.E2EGpu).isFinite &&
      F.lt (F.finite 0) (cmap fqdn Chars.E2EGpu)) = false := by
    rw [← Bool.not_eq_true, Bool.and_eq_true]
    exact he2e
  have g3 : (rawEst.isFinite && F.lt (F.finite 0) rawEst) = false := by
    rcases hraw with h | ⟨hf, hle⟩
    · rw [h]
      rfl
    · rw [← Bool.not_eq_true, Bool.and_eq_true]
      rintro ⟨-, hlt⟩
      cases rawEst with
      | finite q =>
        simp [F.le] at hle
        simp [F.lt] at hlt
        linarith
      | nan => simp [F.lt] at hlt
      | inf => simp [F.isFinite] at hf
      | neginf => simp [F.lt] at hlt
  have hmax : F.max rawEst (F.finite 0) = F.finite 0 := by
    rcases hraw with h | ⟨hf, hle⟩
    · rw [h]
      rfl
    · cases rawEst with
      | finite q =>
        simp [F.le] at hle
        show F.finite (Max.max q 0) = F.finite 0
        rw [max_eq_right hle]
      | nan => rfl
      | inf => simp [F.isFinite] at hf
      | neginf => rfl
  have hxz : (Mice.get_gpu_est cmap fqdn rawEst).1 = (F.finite 0, F.finite 0) := by
    unfold Mice.get_gpu_est
    dsimp only
    rw [g1, g2, g3]
    simp only [Bool.false_eq_true, if_false, hmax]
    norm_num [F.sub, F.add, F.neg, F.mul]
  refine ⟨hxz, ?_, ?_⟩
  · show (CharMap.update cmap fqdn Chars.EstGpu
      (Mice.get_gpu_est cmap fqdn rawEst).1.1) fqdn Chars.EstGpu = F.finite 0
    rw [hxz]
    simp [CharMap.update]
  · rw [hxz]
    have hpreserve : (Mice.get_gpu_est cmap fqdn rawEst).2 fqdn
        Chars.GpuExecTime = cmap fqdn Chars.GpuExecTime := by
      show (CharMap.update cmap fqdn Chars.EstGpu
        (Mice.get_gpu_est cmap fqdn rawEst).1.1) fqdn Chars.GpuExecTime = _
      simp [CharMap.update]
    unfold Mice.job_size_est
    rw [hpreserve]
    have hz : ((F.finite 0).isFinite && F.lt (F.finite 0) (F.finite 0)) = false := by
      simp [F.isFinite, F.lt]
    rw [hz]
    simp only [Bool.false_eq_true, if_false]
    by_cases h : ((cmap fqdn Chars.GpuExecTime).isFinite &&
        F.lt (F.finite 0) (cmap fqdn Chars.GpuExecTime)) = true
    · rw [h]
      rw [Bool.and_eq_true] at h
      rw [if_pos rfl, if_pos h]
    · rw [Bool.not_eq_true] at h
      rw [h]
      have hprop : ¬((cmap fqdn Chars.GpuExecTime).isFinite = true ∧
          F.lt (F.finite 0) (cmap fqdn Chars.GpuExecTime) = true) := by
        rintro ⟨ha, hb⟩
        rw [ha, hb] at h
        simp at h
      rw [if_neg Bool.false_ne_true, if_neg hprop]

/-- Witness for C10: the degenerate-estimator theorem applied at the
`NO_ESTIMATE` sentinel and an all-zero characteristics store. -/
theorem mice_estimator_degenerate_witness :
    (NO_ESTIMATE = F.nan ∨
      (NO_ESTIMATE.isFinite = true ∧ F.le NO_ESTIMATE (F.finite 0) = true)) ∧
    ¬((wCmap "f" Chars.EstGpu).isFinite = true ∧
      F.lt (F.finite 0) (wCmap "f" Chars.EstGpu) = true) ∧
    ¬((wCmap "f" Chars.E2EGpu).isFinite = true ∧
      F.lt (F.finite 0) (wCmap "f" Chars.E2EGpu) = true) ∧
    ((Mice.get_gpu_est wCmap "f" NO_ESTIMATE).1 = (F.finite 0, F.finite 0) ∧
     (Mice.get_gpu_est wCmap "f" NO_ESTIMATE).2 "f" Chars.EstGpu = F.finite 0 ∧
     Mice.job_size_est (Mice.get_gpu_est wCmap "f" NO_ESTIMATE).2 "f"
         (Mice.get_gpu_est wCmap "f" NO_ESTIMATE).1.1 =
       (if (wCmap "f" Chars.GpuExecTime).isFinite = true ∧
           F.lt (F.finite 0) (wCmap "f" Chars.GpuExecTime) = true
        then wCmap "f" Chars.GpuExecTime else F.finite 1)) :=
  ⟨Or.inr ⟨rfl, by norm_num [NO_ESTIMATE, F.le]⟩,
    by norm_num [wCmap, F.isFinite, F.lt],
    by norm_num [wCmap, F.isFinite, F.lt],
    mice_estimator_degenerate wCmap "f" NO_ESTIMATE
      (Or.inr ⟨rfl, by norm_num [NO_ESTIMATE, F.le]⟩)
      (by norm_num [wCmap, F.isFinite, F.lt])
      (by norm_num [wCmap, F.isFinite, F.lt])⟩
